import Mathlib

/-!
# Verification of the SOAP country-info client

A shallow embedding of `src/country_info.py`.  XML documents are modelled
as their parsed element trees (tag, text, children); Python `None` is
modelled as `Option.none`; Python dictionaries holding optional keys are
modelled with `Option (Option String)` fields (outer layer = key present,
inner layer = the stored value, which may itself be Python `None`);
exceptions absorbed by `try/except` blocks are modelled by `Option`
results where `none` stands for the absorbed-exception path.
-/

namespace CountryClient

/-- An XML element as produced by `xml.etree.ElementTree`: a tag, an
optional text node and a list of child elements. -/
inductive XElem where
  | mk (tag : String) (text : Option String) (children : List XElem)
deriving Repr

def XElem.tag : XElem → String
  | .mk t _ _ => t

def XElem.text : XElem → Option String
  | .mk _ x _ => x

def XElem.children : XElem → List XElem
  | .mk _ _ c => c

mutual

/-- Model of `elem.iter()`: the element followed by all of its descendants in
document (pre-)order. -/
def iterElems : XElem → List XElem
  | .mk t x cs => .mk t x cs :: iterList cs

/-- Document-order traversal of a forest of elements. -/
def iterList : List XElem → List XElem
  | [] => []
  | e :: es => iterElems e ++ iterList es

end

/-- All strict descendants of an element in document order (the search
space of `root.find('.//...')`). -/
def descendants (root : XElem) : List XElem :=
  iterList root.children

/-- Sequencing a list of Python values that may be `None`: any `None`
member makes the whole operation fail (the `TypeError` path of
`', '.join` and of `sorted` over mixed `str`/`None`). -/
def seqOpt : List (Option String) → Option (List String)
  | [] => some []
  | none :: _ => none
  | some s :: rest => (seqOpt rest).map (s :: ·)

/-- Substring containment on character lists, the model of Python's
`needle in haystack` on strings. -/
def listContainsSub (needle : List Char) : List Char → Bool
  | [] => needle.isEmpty
  | c :: rest => needle.isPrefixOf (c :: rest) || listContainsSub needle rest

/-- Model of `'sISOCode' in elem.tag` from `parsear_lista_paises`. -/
def hasSISO (t : String) : Bool :=
  listContainsSub "sISOCode".data t.data

/-- The text contents collected by `parsear_lista_paises`' loop: the
`text` of every element (in `root.iter()` order) whose tag contains the
substring `sISOCode`. -/
def isoTexts (root : XElem) : List (Option String) :=
  (iterElems root).filterMap (fun e => if hasSISO e.tag then some e.text else none)

/-- Python `sorted` on a list of `str`-or-`None` values: a list of length
at most one is returned unchanged; otherwise every element takes part in a
comparison, so any `None` raises `TypeError` (modelled by `none`), and an
all-string list is sorted lexicographically ascending. -/
def pySorted (l : List (Option String)) : Option (List (Option String)) :=
  if l.length ≤ 1 then some l
  else
    match seqOpt l with
    | none => none
    | some strs => some ((List.insertionSort (fun a b : String => a ≤ b) strs).map some)

/-- Model of `parsear_lista_paises` (src/country_info.py lines 84-104), on the
parsed tree: collect the text of every `sISOCode`-tagged element and sort;
any exception inside the `try` yields the empty list. -/
def parsear_lista_paises (root : XElem) : List (Option String) :=
  match pySorted (isoTexts root) with
  | some s => s
  | none => []

/-- The `'No disponible'` sentinel. -/
def noDisponible : String := "No disponible"

/-- The namespace-qualified tag looked up first by `parsear_info_pais`. -/
def nsFCIR : String := "\x7bhttp://www.oorsprong.org/websamples.countryinfo\x7dFullCountryInfoResult"

/-- Model of `root.find('.//ns:FullCountryInfoResult', namespaces)` with the
unqualified fallback `root.find('.//FullCountryInfoResult')`: the first
descendant, in document order, with the qualified tag, else the first with
the bare tag. -/
def findFCIR (root : XElem) : Option XElem :=
  match (descendants root).find? (fun e => e.tag = nsFCIR) with
  | some e => some e
  | none => (descendants root).find? (fun e => e.tag = "FullCountryInfoResult")

/-- Model of `elem.tag.split('\x7d')[-1] if '\x7d' in elem.tag else elem.tag`:
the segment after the last closing brace (the local tag name), and the
whole tag when it holds no closing brace. -/
def localTag (t : String) : String :=
  ⟨(t.data.reverse.takeWhile (fun c => c ≠ '\x7d')).reverse⟩

/-- The mutable `info` dictionary and `idiomas` list built by
`parsear_info_pais`' element loop.  An `Option (Option String)` field is
`none` when the dictionary key is absent and `some v` when the key holds
the Python value `v` (which may itself be `None`). -/
structure InfoState where
  nombre : Option (Option String)
  capital : Option (Option String)
  moneda : Option (Option String)
  codigo_telefono : Option (Option String)
  continente : Option (Option String)
  bandera_url : Option (Option String)
  idiomas : List (Option String)
deriving Repr

def initInfoState : InfoState :=
  ⟨none, none, none, none, none, none, []⟩

/-- One iteration of the `for elem in response_elem.iter()` loop of
`parsear_info_pais` (lines 140-159). -/
def infoStep (st : InfoState) (e : XElem) : InfoState :=
  let tag := localTag e.tag
  if tag = "sName" then
    if st.nombre.isNone then { st with nombre := some e.text }
    else { st with idiomas := st.idiomas ++ [e.text] }
  else if tag = "sCapitalCity" then { st with capital := some e.text }
  else if tag = "sCurrencyISOCode" then { st with moneda := some e.text }
  else if tag = "sPhoneCode" then { st with codigo_telefono := some e.text }
  else if tag = "sContinentCode" then { st with continente := some e.text }
  else if tag = "sCountryFlag" then { st with bandera_url := some e.text }
  else st

/-- The country-info record returned on success.  Fields other than
`idiomas` hold the raw dictionary values and may be Python `None`;
`idiomas` is always a real string (the join or the sentinel). -/
structure CountryInfo where
  nombre : Option String
  capital : Option String
  moneda : Option String
  idiomas : String
  codigo_telefono : Option String
  continente : Option String
  bandera_url : Option String
deriving Repr, DecidableEq

/-- Model of `', '.join(idiomas) if idiomas else 'No disponible'`: the sentinel on
an empty list, the comma-and-space join otherwise; joining a list holding
a Python `None` raises `TypeError` (modelled by `none`). -/
def joinIdiomas : List (Option String) → Option String
  | [] => some noDisponible
  | l => (seqOpt l).map (String.intercalate ", ")

/-- Lines 161-172: the `'nombre' in info` check and the final record
assembly from the loop's end state (`dict.get` supplies the sentinel for
absent keys; the languages join may raise). -/
def assembleInfo (st : InfoState) : Option CountryInfo :=
  match st.nombre with
  | none => none
  | some nameText =>
    match joinIdiomas st.idiomas with
    | none => none
    | some langs =>
      some {
        nombre := nameText
        capital := st.capital.getD (some noDisponible)
        moneda := st.moneda.getD (some noDisponible)
        idiomas := langs
        codigo_telefono := st.codigo_telefono.getD (some noDisponible)
        continente := st.continente.getD (some noDisponible)
        bandera_url := st.bandera_url.getD (some noDisponible)
      }

/-- Model of `parsear_info_pais` (src/country_info.py lines 107-176) on the parsed
tree: locate `FullCountryInfoResult`, fold the tag dispatch over its
`iter()` traversal, and assemble the result; the function returns `none`
when the result element is missing, when no `sName` was found, or when an
exception (the languages join) is absorbed by the `except` clause. -/
def parsear_info_pais (root : XElem) : Option CountryInfo :=
  match findFCIR root with
  | none => none
  | some resp => assembleInfo ((iterElems resp).foldl infoStep initInfoState)

/-- The text of an element when its local tag is `sName`. -/
def sNameVal (e : XElem) : Option (Option String) :=
  if localTag e.tag = "sName" then some e.text else none

/-- The `sName` text values of a result element, in `iter()` document
order: the first is the country name, the rest the languages. -/
def sNames (resp : XElem) : List (Option String) :=
  (iterElems resp).filterMap sNameVal

/-! ## History store (`agregar_al_historial`, lines 260-281) -/

/-- One entry of `historial_busquedas`.  The wall clock is modelled by
passing the already-formatted timestamp string as an argument. -/
structure HistEntry where
  codigo : String
  nombre : Option String
  fecha : String
  info : CountryInfo
deriving Repr, DecidableEq

def mkEntry (codigo : String) (info : CountryInfo) (fecha : String) : HistEntry :=
  ⟨codigo, info.nombre, fecha, info⟩

/-- Model of `agregar_al_historial`: append the entry, then
`historial_busquedas = historial_busquedas[-10:]` whenever the length
exceeds 10. -/
def agregar_al_historial (hist : List HistEntry) (codigo : String)
    (info : CountryInfo) (fecha : String) : List HistEntry :=
  let hist' := hist ++ [mkEntry codigo info fecha]
  if 10 < hist'.length then hist'.drop (hist'.length - 10) else hist'

/-- The last ten elements of a list (`l[-10:]`). -/
def lastTen (l : List α) : List α :=
  l.drop (l.length - 10)

/-- A sequence of `agregar_al_historial` calls, one per
`(code, info, timestamp)` triple. -/
def histFold (hist : List HistEntry) (es : List (String × CountryInfo × String)) :
    List HistEntry :=
  es.foldl (fun h e => agregar_al_historial h e.1 e.2.1 e.2.2) hist

/-- The entries a sequence of calls would create, in call order. -/
def entriesOf (es : List (String × CountryInfo × String)) : List HistEntry :=
  es.map (fun e => mkEntry e.1 e.2.1 e.2.2)

/-! ## Transport retries

Modelled from the spec: the retry loop itself lives in the HTTP client
libraries (`requests`/`urllib3`), not in this repository — `crear_session`
(lines 33-42) only configures `Retry(total=3, backoff_factor=1,
status_forcelist=[429, 500, 502, 503, 504])`.  Spec §4.1: up to 3
additional attempts on those statuses or transient connection failures,
exponential backoff with base factor 1 second (1s, 2s, 4s between
attempts); success returns the body, exhaustion or a non-retryable error
surfaces a failure. -/

/-- The outcome the network yields for one attempt. -/
inductive Outcome where
  | status (code : Nat) (body : String)
  | connFail
deriving Repr, DecidableEq

def retryStatuses : List Nat := [429, 500, 502, 503, 504]

/-- Retry on the forcelist statuses or a transient connection failure. -/
def isTransient : Outcome → Bool
  | .status c _ => retryStatuses.contains c
  | .connFail => true

/-- Modelled from the spec: the bounded-retry POST loop of §4.1.
`attempt` is the 0-based index of the current attempt, `total` the number
of additional attempts allowed; the result is the body (or `none` on
failure) paired with the list of backoff waits, in seconds, taken between
attempts. -/
def postAttempts (total : Nat) : List Outcome → Nat → Option String × List Nat
  | [], _ => (none, [])
  | o :: rest, attempt =>
    if isTransient o then
      if attempt < total then
        let r := postAttempts total rest (attempt + 1)
        (r.1, 2 ^ attempt :: r.2)
      else (none, [])
    else
      match o with
      | .status c body => if c < 400 then (some body, []) else (none, [])
      | .connFail => (none, [])

/-- Modelled from the spec: `post` with the configured policy
(`total=3`, `backoff_factor=1`). -/
def post (outcomes : List Outcome) : Option String × List Nat :=
  postAttempts 3 outcomes 0

/-! ## Interactive loop (`main`, lines 370-448)

`input()` results are modelled as a list of events: a line of text or a
`KeyboardInterrupt`.  The detail lookup (`obtener_info_pais`) is modelled
as an oracle `lookup : String → Option CountryInfo`, and the number of
times it is invoked is counted so that "no network call issued" is a
provable statement. -/

inductive Ev where
  | line (s : String)
  | interrupt
deriving Repr, DecidableEq

/-- What one loop iteration did (which message/view it produced). -/
inductive Action where
  | exitCmd
  | help
  | listCmd
  | histCmd
  | exportCmd
  | emptyInput
  | suggestion
  | iterError
  | lookupFail (code : String)
  | detail (code : String)
  | interrupted
deriving Repr, DecidableEq

structure LoopSt where
  hist : List HistEntry
  calls : Nat
deriving Repr, DecidableEq

/-- Python `str.strip()`: remove leading and trailing whitespace. -/
def pyStrip (s : String) : String :=
  ⟨((s.data.dropWhile (fun c => c.isWhitespace)).reverse.dropWhile
      (fun c => c.isWhitespace)).reverse⟩

/-- Python `str.lower()` (ASCII, as the command set needs). -/
def lowerStr (s : String) : String := ⟨s.data.map Char.toLower⟩

/-- Python `str.upper()` (ASCII, as the code list needs). -/
def upperStr (s : String) : String := ⟨s.data.map Char.toUpper⟩

def exitCmds : List String := ["salir", "exit", "quit"]
def helpCmds : List String := ["ayuda", "help"]
def listCmds : List String := ["lista", "list"]
def histCmds : List String := ["historial", "history"]
def exportCmds : List String := ["exportar", "export"]

/-- Model of `codigo_pais.upper() in [c.upper() for c in codigos]`: the list
comprehension evaluates `c.upper()` on every fetched code first, so a
`None` in the list raises (`none` result); otherwise the membership test
is a case-insensitive compare. -/
def memberCheck (codes : List (Option String)) (c : String) : Option Bool :=
  (seqOpt codes).map (fun cs => (cs.map upperStr).contains (upperStr c))

/-- Is the (trimmed, lowered) input one of the recognized commands? -/
def isCmd (c : String) : Bool :=
  exitCmds.contains (lowerStr c) || helpCmds.contains (lowerStr c) ||
    listCmds.contains (lowerStr c) || histCmds.contains (lowerStr c) ||
    exportCmds.contains (lowerStr c)

/-- One iteration of `main`'s `while True` loop (lines 398-448) on one
input event: the new loop state and what the iteration did. -/
def processEv (codes : List (Option String)) (lookup : String → Option CountryInfo)
    (now : String) (st : LoopSt) : Ev → LoopSt × Action
  | .interrupt => (st, .interrupted)
  | .line raw =>
    let c := pyStrip raw
    if exitCmds.contains (lowerStr c) then (st, .exitCmd)
    else if helpCmds.contains (lowerStr c) then (st, .help)
    else if listCmds.contains (lowerStr c) then (st, .listCmd)
    else if histCmds.contains (lowerStr c) then (st, .histCmd)
    else if exportCmds.contains (lowerStr c) then (st, .exportCmd)
    else if c = "" then (st, .emptyInput)
    else
      match memberCheck codes c with
      | none => (st, .iterError)
      | some false => (st, .suggestion)
      | some true =>
        match lookup c with
        | some info =>
          (⟨agregar_al_historial st.hist (upperStr c) info now, st.calls + 1⟩, .detail c)
        | none => (⟨st.hist, st.calls + 1⟩, .lookupFail c)

/-- Actions that leave the `while True` loop (`break`). -/
def isExitAction : Action → Bool
  | .exitCmd => true
  | .interrupted => true
  | _ => false

/-- An event that triggers loop exit: an interrupt, or a line whose
trimmed lowercase form is an exit command. -/
def isExitEv : Ev → Bool
  | .interrupt => true
  | .line s => exitCmds.contains (lowerStr (pyStrip s))

/-- The outcome of running `main`: the process exit status (`none` while
still blocked on input), the number of prompts shown, and the final loop
state. -/
structure RunResult where
  exitCode : Option Nat
  prompts : Nat
  st : LoopSt
deriving Repr, DecidableEq

/-- The `while True` loop: one prompt per event consumed; `break` (exit
command or interrupt) ends the process with status 0. -/
def runLoop (codes : List (Option String)) (lookup : String → Option CountryInfo)
    (now : String) (st : LoopSt) (prompts : Nat) : List Ev → RunResult
  | [] => ⟨none, prompts, st⟩
  | ev :: rest =>
    let p := processEv codes lookup now st ev
    if isExitAction p.2 then ⟨some 0, prompts + 1, p.1⟩
    else runLoop codes lookup now p.1 (prompts + 1) rest

/-- Model of `main` after the startup fetch (lines 382-448): with an empty code
list the process exits with status 1 before any prompt; otherwise the
interactive loop runs on the input events. -/
def mainRun (codes : List (Option String)) (lookup : String → Option CountryInfo)
    (now : String) (evs : List Ev) : RunResult :=
  if codes.isEmpty then ⟨some 1, 0, ⟨[], 0⟩⟩
  else runLoop codes lookup now ⟨[], 0⟩ 0 evs

/-! ## Export (`exportar_resultados`, lines 301-333)

The text file is modelled as its character sequence (`List Char`); each
`f.write(... + "\n")` call contributes its characters.  How a Python
value appears inside an f-string is `pyStr` (`None` prints as `"None"`). -/

/-- f-string rendering of a `str`-or-`None` value. -/
def pyStr : Option String → String
  | none => "None"
  | some s => s

def prefPais : List Char := "📋 País: ".data
def prefFecha : List Char := "📅 Fecha de búsqueda: ".data
def prefCapital : List Char := "🏙️ Capital: ".data
def prefMoneda : List Char := "💰 Moneda: ".data
def prefIdiomas : List Char := "🗣️ Idiomas: ".data
def prefTel : List Char := "📞 Código telefónico: +".data
def prefCont : List Char := "🌎 Continente: ".data

/-- The rule line `"-" * 40`. -/
def ruleChars : List Char := List.replicate 40 '-'

/-- The header rule `"=" * 50`. -/
def eqChars : List Char := List.replicate 50 '='

def linePais (b : HistEntry) : List Char :=
  prefPais ++ (pyStr b.nombre).data ++ " (".data ++ b.codigo.data ++ ")".data

def lineFecha (b : HistEntry) : List Char := prefFecha ++ b.fecha.data

def lineCapital (b : HistEntry) : List Char := prefCapital ++ (pyStr b.info.capital).data

def lineMoneda (b : HistEntry) : List Char := prefMoneda ++ (pyStr b.info.moneda).data

def lineIdiomas (b : HistEntry) : List Char := prefIdiomas ++ b.info.idiomas.data

def lineTel (b : HistEntry) : List Char := prefTel ++ (pyStr b.info.codigo_telefono).data

def lineCont (b : HistEntry) : List Char := prefCont ++ (pyStr b.info.continente).data

/-- The characters one history entry contributes to the file (lines
321-328): seven field lines, the rule line, and a blank line. -/
def exportEntryChars (b : HistEntry) : List Char :=
  linePais b ++ '\n' ::
    (lineFecha b ++ '\n' ::
      (lineCapital b ++ '\n' ::
        (lineMoneda b ++ '\n' ::
          (lineIdiomas b ++ '\n' ::
            (lineTel b ++ '\n' ::
              (lineCont b ++ '\n' ::
                (ruleChars ++ '\n' :: '\n' :: [])))))))

def exportBody : List HistEntry → List Char
  | [] => []
  | b :: bs => exportEntryChars b ++ exportBody bs

def headerL1 : List Char := "🌍 CONSULTOR DE PAÍSES - RESULTADOS EXPORTADOS".data

def headerL3 (now : String) : List Char := "Fecha de exportación: ".data ++ now.data

/-- Model of `exportar_resultados` (lines 301-333): with an empty history nothing
is written (early return, modelled `none`); otherwise the file holds the
three header lines, a blank line, and one block per entry.  The file of
the default name `resultados_paises.txt` is overwritten with exactly
these characters. -/
def exportar_resultados (now : String) (hist : List HistEntry) : Option (List Char) :=
  if hist = [] then none
  else some (headerL1 ++ '\n' ::
    (eqChars ++ '\n' ::
      (headerL3 now ++ '\n' :: '\n' :: exportBody hist)))

/-! ### Re-reading the export file

Modelled from the spec: the repository has no reader for the export file;
§8's round-trip property ("exporting history then re-reading the file
reproduces every field ... verbatim") is settled against this line-based
reader of the format of §4.5. -/

/-- Split a character sequence into its newline-separated lines. -/
def splitNL : List Char → List (List Char)
  | [] => [[]]
  | c :: rest =>
    if c = '\n' then [] :: splitNL rest
    else
      match splitNL rest with
      | [] => [[c]]
      | l :: ls => (c :: l) :: ls

/-- The seven per-entry fields recovered from the file. -/
structure ReadFields where
  nombre : String
  fecha : String
  capital : String
  moneda : String
  idiomas : String
  tel : String
  continente : String
deriving Repr, DecidableEq

/-- The in-memory fields an entry's block is expected to reproduce. -/
def entryFields (b : HistEntry) : ReadFields :=
  ⟨pyStr b.nombre, b.fecha, pyStr b.info.capital, pyStr b.info.moneda,
    b.info.idiomas, pyStr b.info.codigo_telefono, pyStr b.info.continente⟩

/-- Recover the country name from the content of the `País` line, which
has the shape `name ++ " (" ++ code ++ ")"`: strip the final `)`, then
everything back to the last `(` is the code. -/
def extractNombre (content : List Char) : List Char :=
  match content.reverse with
  | ')' :: r =>
    match r.dropWhile (fun c => c ≠ '(') with
    | '(' :: ' ' :: nr => nr.reverse
    | _ => []
  | _ => []

/-- Parse one 7-line block into its fields, dropping each line's fixed
label. -/
def blockFields (l1 l2 l3 l4 l5 l6 l7 : List Char) : ReadFields :=
  ⟨⟨extractNombre (l1.drop prefPais.length)⟩,
    ⟨l2.drop prefFecha.length⟩,
    ⟨l3.drop prefCapital.length⟩,
    ⟨l4.drop prefMoneda.length⟩,
    ⟨l5.drop prefIdiomas.length⟩,
    ⟨l6.drop prefTel.length⟩,
    ⟨l7.drop prefCont.length⟩⟩

/-- Modelled from the spec (§4.5, §8): read the entry blocks back from
the file's lines — seven field lines, a rule line and a blank line per
entry. -/
def readEntries : List (List Char) → List ReadFields
  | l1 :: l2 :: l3 :: l4 :: l5 :: l6 :: l7 :: _rule :: _blank :: rest =>
    blockFields l1 l2 l3 l4 l5 l6 l7 :: readEntries rest
  | _ => []

/-- Modelled from the spec: re-read an exported file — skip the three
header lines and the blank line, then parse the entry blocks. -/
def leerExportado (file : List Char) : List ReadFields :=
  readEntries ((splitNL file).drop 4)

/-- A history entry whose fields survive the textual round trip: every
exported field is a present string without a newline, and the country
code contains no `(`. -/
def cleanEntry (b : HistEntry) : Prop :=
  b.nombre.isSome = true ∧ '\n' ∉ (pyStr b.nombre).data ∧
    '\n' ∉ b.codigo.data ∧ '(' ∉ b.codigo.data ∧
    '\n' ∉ b.fecha.data ∧
    b.info.capital.isSome = true ∧ '\n' ∉ (pyStr b.info.capital).data ∧
    b.info.moneda.isSome = true ∧ '\n' ∉ (pyStr b.info.moneda).data ∧
    '\n' ∉ b.info.idiomas.data ∧
    b.info.codigo_telefono.isSome = true ∧ '\n' ∉ (pyStr b.info.codigo_telefono).data ∧
    b.info.continente.isSome = true ∧ '\n' ∉ (pyStr b.info.continente).data

instance (b : HistEntry) : Decidable (cleanEntry b) := by
  unfold cleanEntry
  infer_instance

/-! ## Concrete sample data used by the witness theorems -/

/-- A fully-populated country record. -/
def ciSample : CountryInfo :=
  ⟨some "Peru", some "Lima", some "PEN", "Spanish, Quechua", some "51",
    some "AMERICAS", some "flag.gif"⟩

/-- Eleven lookup results appended in sequence. -/
def esEleven : List (String × CountryInfo × String) :=
  (List.range 11).map (fun i => (toString i, ciSample, "2024-01-01 00:00:00"))

/-- A country-info response: a qualified result element whose first
`sName` is the country and whose later `sName`s are languages. -/
def respSample : XElem :=
  .mk nsFCIR none
    [.mk "sName" (some "Peru") [],
      .mk "sCapitalCity" (some "Lima") [],
      .mk "Languages" none
        [.mk "tLanguage" none
          [.mk "sISOCode" (some "spa") [], .mk "sName" (some "Spanish") []]]]

def rootSample : XElem := .mk "Envelope" none [.mk "Body" none [respSample]]

/-- A result element whose first `sName` carries no text. -/
def respNoText : XElem :=
  .mk "FullCountryInfoResult" none
    [.mk "sName" none [], .mk "sName" (some "Spanish") []]

def rootNoText : XElem := .mk "Envelope" none [respNoText]

/-- A result element with no `sName` at all. -/
def respNoName : XElem :=
  .mk "FullCountryInfoResult" none [.mk "sCapitalCity" (some "Lima") []]

def rootNoName : XElem := .mk "Envelope" none [respNoName]

/-- A result element whose second `sName` carries no text (the languages
join raises). -/
def respBadLang : XElem :=
  .mk "FullCountryInfoResult" none
    [.mk "sName" (some "Peru") [], .mk "sName" none []]

def rootBadLang : XElem := .mk "Envelope" none [respBadLang]

/-- A list response with two ISO-code elements, out of order. -/
def rootListSample : XElem :=
  .mk "Envelope" none
    [.mk "m:sISOCode" (some "PE") [],
      .mk "inner" none [.mk "sISOCode" (some "AD") []]]

/-- A list response mixing an empty ISO-code element with a textual one. -/
def rootListMixed : XElem :=
  .mk "Envelope" none
    [.mk "sISOCode" (some "PE") [], .mk "sISOCode" none []]

/-- Two single-entry histories that differ in the capital field but
export to byte-identical files: entry A's capital embeds a line that
mimics the currency label, entry B's currency does. -/
def ciCapNL : CountryInfo :=
  ⟨some "Peru", some "A\n💰 Moneda: B", some "C", "L", some "1", some "K", some "F"⟩

def ciMonNL : CountryInfo :=
  ⟨some "Peru", some "A", some "B\n💰 Moneda: C", "L", some "1", some "K", some "F"⟩

def histCapNL : List HistEntry := [mkEntry "PE" ciCapNL "2024-01-01 00:00:00"]

def histMonNL : List HistEntry := [mkEntry "PE" ciMonNL "2024-01-01 00:00:00"]

/-- A clean single-entry history for the round-trip witness. -/
def histClean : List HistEntry := [mkEntry "PE" ciSample "2024-01-01 10:00:00"]

/-! ## General lemmas about the history store -/

theorem lastTen_length_le (l : List α) : (lastTen l).length ≤ 10 := by
  simp only [lastTen, List.length_drop]
  omega

theorem lastTen_append_left (a b : List α) :
    lastTen (lastTen a ++ b) = lastTen (a ++ b) := by
  rcases le_or_lt a.length 10 with h | h
  · have h0 : a.length - 10 = 0 := by omega
    simp [lastTen, h0]
  · unfold lastTen
    have hx : (a.drop (a.length - 10)).length = 10 := by
      rw [List.length_drop]; omega
    rw [List.drop_append_eq_append_drop, List.drop_append_eq_append_drop,
      List.drop_drop]
    congr 2 <;> simp only [List.length_append, hx, List.length_drop] <;> omega

theorem agregar_eq_lastTen (hist : List HistEntry) (c : String)
    (i : CountryInfo) (f : String) :
    agregar_al_historial hist c i f = lastTen (hist ++ [mkEntry c i f]) := by
  unfold agregar_al_historial lastTen
  dsimp only
  split
  · rfl
  · next h =>
    rw [show (hist ++ [mkEntry c i f]).length - 10 = 0 by omega]
    rfl

theorem histFold_eq_lastTen (es : List (String × CountryInfo × String)) :
    ∀ hist : List HistEntry, hist.length ≤ 10 →
      histFold hist es = lastTen (hist ++ entriesOf es) := by
  induction es with
  | nil =>
    intro hist h
    simp [histFold, entriesOf, lastTen, Nat.sub_eq_zero_of_le h]
  | cons e es ih =>
    intro hist h
    have step : histFold hist (e :: es) =
        histFold (agregar_al_historial hist e.1 e.2.1 e.2.2) es := rfl
    rw [step, ih _ (by rw [agregar_eq_lastTen]; exact lastTen_length_le _),
      agregar_eq_lastTen, lastTen_append_left]
    simp [entriesOf]

/-- C4: the history store never holds more than 10 entries — any sequence
of `agregar_al_historial` calls starting from the empty store leaves at
most 10 entries, and appending exactly 11 entries leaves precisely the
last 10 appended entries in oldest-first order (the first is dropped).
Timestamps are the wall-clock strings passed with each call. -/
theorem historial_bounded (es : List (String × CountryInfo × String)) :
    (histFold [] es).length ≤ 10 ∧
      (es.length = 11 → histFold [] es = (entriesOf es).drop 1) := by
  have h := histFold_eq_lastTen es [] (by simp)
  simp only [List.nil_append] at h
  refine ⟨by rw [h]; exact lastTen_length_le _, fun h11 => ?_⟩
  rw [h]
  unfold lastTen
  rw [show (entriesOf es).length = 11 by simp [entriesOf, h11]]

theorem historial_bounded_witness :
    (histFold [] esEleven).length ≤ 10 ∧
      histFold [] esEleven = (entriesOf esEleven).drop 1 :=
  ⟨(historial_bounded esEleven).1, (historial_bounded esEleven).2 (by decide)⟩

/-! ## Transport retry theorems -/

theorem postAttempts_transient_chain (pre : List Outcome) :
    ∀ (rest : List Outcome) (k : Nat), k + pre.length ≤ 3 →
      (∀ o ∈ pre, isTransient o = true) →
      postAttempts 3 (pre ++ rest) k =
        ((postAttempts 3 rest (k + pre.length)).1,
          (List.range' k pre.length).map (fun i => 2 ^ i) ++
            (postAttempts 3 rest (k + pre.length)).2) := by
  induction pre with
  | nil => intro rest k _ _; simp [List.range']
  | cons o pre ih =>
    intro rest k hk htr
    have ho : isTransient o = true := htr o (by simp)
    have hk' : k < 3 := by simp only [List.length_cons] at hk; omega
    simp only [List.cons_append, postAttempts, ho, if_pos hk', if_true, List.append_eq]
    rw [ih rest (k + 1) (by simp only [List.length_cons] at hk; omega)
      (fun o ho => htr o (by simp [ho]))]
    simp only [List.length_cons, List.range'_succ, List.map_cons, List.cons_append]
    rw [show k + (pre.length + 1) = k + 1 + pre.length by omega]

/-- C1: with the configured policy (3 additional attempts, statuses
{429, 500, 502, 503, 504} or connection failures retried, backoff factor
1s), any run of up to 3 transient outcomes followed by HTTP 200 succeeds
with the final body after waits of 1s, 2s, 4s between attempts; four
transient outcomes exhaust the retries and fail.  Modelled from the spec:
the retry loop lives in `requests`/`urllib3`, configured by
`crear_session`. -/
theorem post_retries (pre : List Outcome) (body : String)
    (hlen : pre.length ≤ 3) (htr : ∀ o ∈ pre, isTransient o = true) :
    post (pre ++ [Outcome.status 200 body]) =
      (some body, (List.range pre.length).map (fun i => 2 ^ i)) ∧
    ∀ os : List Outcome, os.length = 4 → (∀ o ∈ os, isTransient o = true) →
      (post os).1 = none := by
  constructor
  · unfold post
    rw [postAttempts_transient_chain pre [Outcome.status 200 body] 0 (by omega) htr]
    have h200 : isTransient (Outcome.status 200 body) = false := rfl
    simp [postAttempts, h200, List.range_eq_range']
  · intro os h4 htr4
    rcases os with _ | ⟨a, _ | ⟨b, _ | ⟨c, _ | ⟨d, _ | ⟨e, tl⟩⟩⟩⟩⟩ <;>
      simp only [List.length_nil, List.length_cons] at h4 <;> try omega
    unfold post
    rw [show [a, b, c, d] = [a, b, c] ++ [d] by rfl,
      postAttempts_transient_chain [a, b, c] [d] 0 (by simp)
        (fun o ho => htr4 o (by simp at ho ⊢; tauto))]
    simp [postAttempts, htr4 d (by simp)]

theorem post_retries_witness :
    post [Outcome.status 503 "", Outcome.status 503 "", Outcome.status 503 "",
        Outcome.status 200 "BODY"] =
      (some "BODY", [1, 2, 4]) ∧
    (post [Outcome.status 503 "", Outcome.connFail, Outcome.status 429 "",
        Outcome.status 503 ""]).1 = none := by
  have h := post_retries [Outcome.status 503 "", Outcome.status 503 "",
    Outcome.status 503 ""] "BODY" (by decide) (by decide)
  exact ⟨h.1, h.2 _ (by decide) (by decide)⟩

/-! ## Interactive-loop theorems -/

theorem processEv_exit (codes : List (Option String))
    (lookup : String → Option CountryInfo) (now : String) (st : LoopSt)
    (ev : Ev) (h : isExitEv ev = true) :
    isExitAction (processEv codes lookup now st ev).2 = true := by
  cases ev with
  | interrupt => rfl
  | line s =>
    simp only [isExitEv] at h
    have h' : lowerStr (pyStrip s) ∈ exitCmds := by simpa using h
    simp [processEv, h', isExitAction]

theorem runLoop_exits (codes : List (Option String))
    (lookup : String → Option CountryInfo) (now : String) :
    ∀ (evs : List Ev) (st : LoopSt) (p : Nat),
      (∃ ev ∈ evs, isExitEv ev = true) →
      (runLoop codes lookup now st p evs).exitCode = some 0 := by
  intro evs
  induction evs with
  | nil => intro st p h; simp at h
  | cons ev rest ih =>
    intro st p h
    by_cases hx : isExitAction (processEv codes lookup now st ev).2 = true
    · simp [runLoop, hx]
    · have hev : isExitEv ev = false := by
        rcases Bool.eq_false_or_eq_true (isExitEv ev) with h' | h'
        · exact absurd (processEv_exit codes lookup now st ev h') hx
        · exact h'
      simp only [runLoop]
      rw [if_neg hx]
      apply ih
      obtain ⟨e, he, hee⟩ := h
      rcases List.mem_cons.mp he with rfl | he2
      · rw [hev] at hee; cases hee
      · exact ⟨e, he2, hee⟩

theorem runLoop_never_one (codes : List (Option String))
    (lookup : String → Option CountryInfo) (now : String) :
    ∀ (evs : List Ev) (st : LoopSt) (p : Nat),
      (runLoop codes lookup now st p evs).exitCode ≠ some 1 := by
  intro evs
  induction evs with
  | nil => intro st p; simp [runLoop]
  | cons ev rest ih =>
    intro st p
    by_cases hx : isExitAction (processEv codes lookup now st ev).2 = true <;>
      simp [runLoop, hx, ih]

/-- C6: the process exit status is `some 1` exactly when the startup
fetch produced no codes (and then no prompt is shown), and a run whose
input contains a user exit command or interrupt ends with status 0. -/
theorem exit_codes (codes : List (Option String))
    (lookup : String → Option CountryInfo) (now : String) (evs : List Ev) :
    (codes = [] → mainRun codes lookup now evs = ⟨some 1, 0, ⟨[], 0⟩⟩) ∧
    (codes ≠ [] → (∃ ev ∈ evs, isExitEv ev = true) →
      (mainRun codes lookup now evs).exitCode = some 0) ∧
    ((mainRun codes lookup now evs).exitCode = some 1 → codes = []) := by
  refine ⟨fun h => by simp [mainRun, h], fun h hex => ?_, fun h1 => ?_⟩
  · rw [mainRun, if_neg (by simpa using h)]
    exact runLoop_exits codes lookup now evs ⟨[], 0⟩ 0 hex
  · by_contra hne
    rw [mainRun, if_neg (by simpa using hne)] at h1
    exact runLoop_never_one codes lookup now evs ⟨[], 0⟩ 0 h1

theorem exit_codes_witness :
    mainRun [] (fun _ => none) "t" [] = ⟨some 1, 0, ⟨[], 0⟩⟩ ∧
      (mainRun [some "PE"] (fun _ => none) "t"
        [Ev.line "ZZ", Ev.line "salir"]).exitCode = some 0 :=
  ⟨(exit_codes [] (fun _ => none) "t" []).1 rfl,
    (exit_codes [some "PE"] (fun _ => none) "t"
        [Ev.line "ZZ", Ev.line "salir"]).2.1 (by decide)
      ⟨Ev.line "salir", by decide, by decide⟩⟩

/-- C7: in one loop iteration on a non-empty, non-command input line —
with the suggestion branch when the code is not a (case-insensitive)
member of the fetched list — no detail lookup is issued and the history
is unchanged; a member code whose lookup fails leaves the history
unchanged (one lookup issued); only a successful lookup appends to the
history. -/
theorem loop_frame (codes : List (Option String))
    (lookup : String → Option CountryInfo) (now : String) (st : LoopSt)
    (raw : String) (hcmd : isCmd (pyStrip raw) = false)
    (hne : pyStrip raw ≠ "") :
    (memberCheck codes (pyStrip raw) = some false →
      processEv codes lookup now st (.line raw) = (st, .suggestion)) ∧
    (memberCheck codes (pyStrip raw) = some true → lookup (pyStrip raw) = none →
      processEv codes lookup now st (.line raw) =
        (⟨st.hist, st.calls + 1⟩, .lookupFail (pyStrip raw))) ∧
    (∀ info, memberCheck codes (pyStrip raw) = some true →
      lookup (pyStrip raw) = some info →
      processEv codes lookup now st (.line raw) =
        (⟨agregar_al_historial st.hist (upperStr (pyStrip raw)) info now,
          st.calls + 1⟩, .detail (pyStrip raw))) := by
  simp only [isCmd, Bool.or_eq_false_iff] at hcmd
  obtain ⟨⟨⟨⟨h1, h2⟩, h3⟩, h4⟩, h5⟩ := hcmd
  have h1' : lowerStr (pyStrip raw) ∉ exitCmds := by simpa using h1
  have h2' : lowerStr (pyStrip raw) ∉ helpCmds := by simpa using h2
  have h3' : lowerStr (pyStrip raw) ∉ listCmds := by simpa using h3
  have h4' : lowerStr (pyStrip raw) ∉ histCmds := by simpa using h4
  have h5' : lowerStr (pyStrip raw) ∉ exportCmds := by simpa using h5
  refine ⟨fun hm => ?_, fun hm hl => ?_, fun info hm hl => ?_⟩
  · simp [processEv, h1', h2', h3', h4', h5', hne, hm]
  · simp [processEv, h1', h2', h3', h4', h5', hne, hm, hl]
  · simp [processEv, h1', h2', h3', h4', h5', hne, hm, hl]

theorem loop_frame_witness :
    processEv [some "PE"] (fun _ => none) "t" ⟨[], 0⟩ (.line "ZZ") =
      (⟨[], 0⟩, .suggestion) ∧
    processEv [some "PE"] (fun _ => none) "t" ⟨[], 0⟩ (.line "PE") =
      (⟨[], 1⟩, .lookupFail "PE") ∧
    processEv [some "PE"] (fun _ => some ciSample) "t" ⟨[], 0⟩ (.line "pe") =
      (⟨agregar_al_historial [] "PE" ciSample "t", 1⟩, .detail "pe") := by
  refine ⟨(loop_frame [some "PE"] (fun _ => none) "t" ⟨[], 0⟩ "ZZ"
      (by decide) (by decide)).1 (by decide),
    (loop_frame [some "PE"] (fun _ => none) "t" ⟨[], 0⟩ "PE"
      (by decide) (by decide)).2.1 (by decide) rfl, ?_⟩
  exact (loop_frame [some "PE"] (fun _ => some ciSample) "t" ⟨[], 0⟩ "pe"
    (by decide) (by decide)).2.2 ciSample (by decide) rfl

/-! ## Mixed ISO-code list theorems -/

theorem seqOpt_eq_none {l : List (Option String)} (h : none ∈ l) :
    seqOpt l = none := by
  induction l with
  | nil => simp at h
  | cons a rest ih =>
    cases a with
    | none => rfl
    | some s =>
      rcases List.mem_cons.mp h with h | h
      · cases h
      · simp [seqOpt, ih h]

/-- C9: a well-formed list response in which some `sISOCode` element has
no text while another has text makes `parsear_lista_paises` return the
empty list — the sort raises, the exception is absorbed, and every code
is discarded — and at startup that empty list makes `main` exit with
status 1 before any prompt. -/
theorem mixed_iso_codes (root : XElem)
    (hnone : none ∈ isoTexts root) (hsome : ∃ s, some s ∈ isoTexts root) :
    parsear_lista_paises root = [] ∧
      ∀ (lookup : String → Option CountryInfo) (now : String) (evs : List Ev),
        mainRun (parsear_lista_paises root) lookup now evs =
          ⟨some 1, 0, ⟨[], 0⟩⟩ := by
  have hlen : ¬ (isoTexts root).length ≤ 1 := by
    obtain ⟨s, hs⟩ := hsome
    intro hle
    match hl : isoTexts root, hle with
    | [], _ => rw [hl] at hnone; cases hnone
    | [a], _ =>
      rw [hl] at hnone hs
      simp at hnone hs
      exact Option.noConfusion (hs.trans hnone.symm)
  have hempty : parsear_lista_paises root = [] := by
    simp [parsear_lista_paises, pySorted, hlen, seqOpt_eq_none hnone]
  exact ⟨hempty, fun lookup now evs => by simp [hempty, mainRun]⟩

theorem mixed_iso_codes_witness :
    parsear_lista_paises rootListMixed = [] ∧
      ∀ (lookup : String → Option CountryInfo) (now : String) (evs : List Ev),
        mainRun (parsear_lista_paises rootListMixed) lookup now evs =
          ⟨some 1, 0, ⟨[], 0⟩⟩ :=
  mixed_iso_codes rootListMixed (by decide) ⟨"PE", by decide⟩

/-! ## Country-info parser theorems -/

theorem infoStep_not_sName (st : InfoState) (e : XElem)
    (h : ¬ localTag e.tag = "sName") :
    (infoStep st e).nombre = st.nombre ∧ (infoStep st e).idiomas = st.idiomas := by
  unfold infoStep
  rw [if_neg h]
  split_ifs <;> exact ⟨rfl, rfl⟩

theorem infoStep_sName_none (st : InfoState) (e : XElem)
    (h : localTag e.tag = "sName") (hn : st.nombre = none) :
    infoStep st e = { st with nombre := some e.text } := by
  unfold infoStep
  rw [if_pos h, if_pos (by simp [hn])]

theorem infoStep_sName_some (st : InfoState) (e : XElem)
    (h : localTag e.tag = "sName") (v : Option String) (hn : st.nombre = some v) :
    infoStep st e = { st with idiomas := st.idiomas ++ [e.text] } := by
  unfold infoStep
  rw [if_pos h, if_neg (by simp [hn])]

theorem foldl_infoStep_names (L : List XElem) :
    ∀ st : InfoState,
      ((L.foldl infoStep st).nombre, (L.foldl infoStep st).idiomas) =
        match st.nombre with
        | some v => (some v, st.idiomas ++ L.filterMap sNameVal)
        | none =>
          match L.filterMap sNameVal with
          | [] => (none, st.idiomas)
          | t :: ts => (some t, st.idiomas ++ ts) := by
  induction L with
  | nil =>
    intro st
    cases hn : st.nombre <;> simp [hn]
  | cons e L ih =>
    intro st
    by_cases he : localTag e.tag = "sName"
    · have hval : sNameVal e = some e.text := by simp [sNameVal, he]
      cases hn : st.nombre with
      | none =>
        rw [List.foldl_cons, infoStep_sName_none st e he hn, ih]
        simp [List.filterMap_cons, hval]
      | some v =>
        rw [List.foldl_cons, infoStep_sName_some st e he v hn, ih]
        simp [List.filterMap_cons, hval, hn]
    · have hval : sNameVal e = none := by simp [sNameVal, he]
      obtain ⟨hn', hi'⟩ := infoStep_not_sName st e he
      rw [List.foldl_cons, ih]
      rw [hn', hi']
      simp [List.filterMap_cons, hval]

theorem seqOpt_map_some (l : List String) : seqOpt (l.map some) = some l := by
  induction l with
  | nil => rfl
  | cons a l ih => simp [seqOpt, ih]

/-- Joint characterization of `parsear_info_pais` on a response whose
`sName` values are a first (possibly `None`) name followed by textual
languages. -/
theorem parse_info_shape (root resp : XElem) (t0 : Option String)
    (restS : List String) (hfind : findFCIR root = some resp)
    (hnames : sNames resp = t0 :: restS.map some) :
    ∃ ci : CountryInfo, parsear_info_pais root = some ci ∧ ci.nombre = t0 ∧
      ci.idiomas =
        (if restS = [] then noDisponible else String.intercalate ", " restS) := by
  have hP : parsear_info_pais root =
      assembleInfo ((iterElems resp).foldl infoStep initInfoState) := by
    unfold parsear_info_pais
    rw [hfind]
  have hpair := foldl_infoStep_names (iterElems resp) initInfoState
  unfold sNames at hnames
  rw [hnames] at hpair
  have hn := congrArg Prod.fst hpair
  have hi := congrArg Prod.snd hpair
  simp only [show initInfoState.nombre = (none : Option (Option String)) from rfl,
    show initInfoState.idiomas = ([] : List (Option String)) from rfl,
    List.nil_append] at hn hi
  rw [hP]
  unfold assembleInfo
  cases restS with
  | nil =>
    simp only [List.map_nil] at hi
    rw [hn, hi]
    exact ⟨_, rfl, rfl, by simp [joinIdiomas]⟩
  | cons a rs =>
    simp only [List.map_cons] at hi
    have hseq : seqOpt (some a :: rs.map some) = some (a :: rs) :=
      seqOpt_map_some (a :: rs)
    have hj : joinIdiomas (some a :: rs.map some) =
        some (String.intercalate ", " (a :: rs)) := by
      rw [show joinIdiomas (some a :: rs.map some) =
          (seqOpt (some a :: rs.map some)).map (String.intercalate ", ") from rfl,
        hseq]
      rfl
    rw [hn, hi, hj]
    exact ⟨_, rfl, rfl, by simp⟩

/-- C2: whenever `FullCountryInfoResult` is located and its `sName`
descendants are a first occurrence followed by textual ones, the parsed
record's name is the first `sName` text (never a language), and the
languages field is the comma-and-space join of all subsequent `sName`
texts in document order — the sentinel when there are none. -/
theorem info_first_sName (root resp : XElem) (t0 : Option String)
    (restS : List String) (hfind : findFCIR root = some resp)
    (hnames : sNames resp = t0 :: restS.map some) :
    ∃ ci : CountryInfo, parsear_info_pais root = some ci ∧ ci.nombre = t0 ∧
      ci.idiomas =
        (if restS = [] then noDisponible else String.intercalate ", " restS) :=
  parse_info_shape root resp t0 restS hfind hnames

theorem info_first_sName_witness :
    ∃ ci : CountryInfo, parsear_info_pais rootSample = some ci ∧
      ci.nombre = some "Peru" ∧ ci.idiomas = "Spanish" := by
  obtain ⟨ci, h1, h2, h3⟩ := info_first_sName rootSample respSample
    (some "Peru") ["Spanish"] rfl rfl
  exact ⟨ci, h1, h2, by simpa using h3⟩

/-- C10: when the first `sName` under the result element is present but
carries no text, `parsear_info_pais` still returns a present record —
the tag's presence satisfies the required-name check — whose name is the
`None` text value rather than the sentinel, and every subsequent `sName`
still lands in the languages list. -/
theorem info_empty_first_sName (root resp : XElem) (restS : List String)
    (hfind : findFCIR root = some resp)
    (hnames : sNames resp = none :: restS.map some) :
    ∃ ci : CountryInfo, parsear_info_pais root = some ci ∧ ci.nombre = none ∧
      ci.nombre ≠ some noDisponible ∧
      ci.idiomas =
        (if restS = [] then noDisponible else String.intercalate ", " restS) := by
  obtain ⟨ci, h1, h2, h3⟩ := parse_info_shape root resp none restS hfind hnames
  exact ⟨ci, h1, h2, by simp [h2], h3⟩

theorem info_empty_first_sName_witness :
    ∃ ci : CountryInfo, parsear_info_pais rootNoText = some ci ∧
      ci.nombre = none ∧ ci.nombre ≠ some noDisponible ∧
      ci.idiomas = "Spanish" := by
  obtain ⟨ci, h1, h2, h3, h4⟩ := info_empty_first_sName rootNoText respNoText
    ["Spanish"] rfl rfl
  exact ⟨ci, h1, h2, h3, by simpa using h4⟩

/-- C8: `parsear_info_pais` returns absent when the result element is
missing, when no `sName` occurs under it (the name is the only required
field), and when the languages join raises (a subsequent `sName` with no
text) — the exception is absorbed, never propagated. -/
theorem info_absent (root : XElem) :
    (findFCIR root = none → parsear_info_pais root = none) ∧
    (∀ resp, findFCIR root = some resp → sNames resp = [] →
      parsear_info_pais root = none) ∧
    (∀ resp t0 rest, findFCIR root = some resp → sNames resp = t0 :: rest →
      none ∈ rest → parsear_info_pais root = none) := by
  refine ⟨fun h => by simp [parsear_info_pais, h], fun resp hfind hnames => ?_,
    fun resp t0 rest hfind hnames hmem => ?_⟩
  · have hP : parsear_info_pais root =
        assembleInfo ((iterElems resp).foldl infoStep initInfoState) := by
      unfold parsear_info_pais
      rw [hfind]
    have hpair := foldl_infoStep_names (iterElems resp) initInfoState
    unfold sNames at hnames
    rw [hnames] at hpair
    have hn := congrArg Prod.fst hpair
    simp only [show initInfoState.nombre = (none : Option (Option String)) from rfl] at hn
    rw [hP]
    unfold assembleInfo
    rw [hn]
  · have hP : parsear_info_pais root =
        assembleInfo ((iterElems resp).foldl infoStep initInfoState) := by
      unfold parsear_info_pais
      rw [hfind]
    have hpair := foldl_infoStep_names (iterElems resp) initInfoState
    unfold sNames at hnames
    rw [hnames] at hpair
    have hn := congrArg Prod.fst hpair
    have hi := congrArg Prod.snd hpair
    simp only [show initInfoState.nombre = (none : Option (Option String)) from rfl,
      show initInfoState.idiomas = ([] : List (Option String)) from rfl,
      List.nil_append] at hn hi
    have hrest : rest ≠ [] := by intro h; rw [h] at hmem; cases hmem
    have hj : joinIdiomas rest = none := by
      cases rest with
      | nil => exact absurd rfl hrest
      | cons a rs =>
        rw [show joinIdiomas (a :: rs) =
            (seqOpt (a :: rs)).map (String.intercalate ", ") from rfl,
          seqOpt_eq_none hmem]
        rfl
    rw [hP]
    unfold assembleInfo
    rw [hn, hi, hj]

theorem info_absent_witness :
    parsear_info_pais (XElem.mk "Envelope" none []) = none ∧
      parsear_info_pais rootNoName = none ∧
      parsear_info_pais rootBadLang = none :=
  ⟨(info_absent (XElem.mk "Envelope" none [])).1 rfl,
    (info_absent rootNoName).2.1 respNoName rfl rfl,
    (info_absent rootBadLang).2.2 respBadLang (some "Peru") [none]
      rfl rfl (by decide)⟩

/-! ## Country-list parser theorem -/

/-- C3: on a list response whose ISO-code-tagged elements all carry text,
`parsear_lista_paises` returns exactly those texts — as many entries as
elements — rearranged into lexicographically ascending order: a sorted
permutation, no duplicates introduced or removed. -/
theorem lista_sorted (root : XElem) (strs : List String)
    (h : isoTexts root = strs.map some) :
    ∃ out : List String,
      parsear_lista_paises root = out.map some ∧
        (parsear_lista_paises root).length = strs.length ∧
        out.Perm strs ∧ out.Sorted (fun a b : String => a ≤ b) := by
  by_cases hlen : (isoTexts root).length ≤ 1
  · have hs : strs.length ≤ 1 := by
      rw [h] at hlen; simpa using hlen
    refine ⟨strs, ?_, ?_, List.Perm.refl _, ?_⟩
    · simp [parsear_lista_paises, pySorted, hlen, h, hs]
    · simp [parsear_lista_paises, pySorted, hlen, h, hs]
    · match strs, hs with
      | [], _ => exact List.sorted_nil
      | [a], _ => exact List.sorted_singleton a
  · have hs : ¬ strs.length ≤ 1 := by
      rw [h] at hlen; simpa using hlen
    refine ⟨List.insertionSort (fun a b : String => a ≤ b) strs, ?_, ?_, ?_, ?_⟩
    · simp [parsear_lista_paises, pySorted, hlen, h, hs, seqOpt_map_some]
    · simp [parsear_lista_paises, pySorted, hlen, h, hs, seqOpt_map_some,
        List.length_insertionSort]
    · exact List.perm_insertionSort _ _
    · exact List.sorted_insertionSort _ _

theorem lista_sorted_witness :
    ∃ out : List String,
      parsear_lista_paises rootListSample = out.map some ∧
        (parsear_lista_paises rootListSample).length = (["PE", "AD"] : List String).length ∧
        out.Perm ["PE", "AD"] ∧ out.Sorted (fun a b : String => a ≤ b) :=
  lista_sorted rootListSample ["PE", "AD"] rfl

/-! ## Export round-trip theorems -/

theorem splitNL_append (a b : List Char) (h : '\n' ∉ a) :
    splitNL (a ++ '\n' :: b) = a :: splitNL b := by
  induction a with
  | nil => simp [splitNL]
  | cons c a ih =>
    have hc : ¬ c = '\n' := fun hc => h (by simp [hc])
    have ha : '\n' ∉ a := fun hm => h (by simp [hm])
    simp only [List.cons_append, splitNL, if_neg hc, List.append_eq, ih ha]

theorem dropWhile_append_all {α : Type} (p : α → Bool) (a b : List α)
    (h : ∀ x ∈ a, p x = true) : (a ++ b).dropWhile p = b.dropWhile p := by
  induction a with
  | nil => rfl
  | cons c a ih =>
    rw [List.cons_append, List.dropWhile_cons, if_pos (h c (by simp))]
    exact ih (fun x hx => h x (by simp [hx]))

theorem extractNombre_spec (name code : List Char) (hcode : '(' ∉ code) :
    extractNombre (name ++ ' ' :: '(' :: (code ++ [')'])) = name := by
  have hdw : (code.reverse ++ '(' :: ' ' :: name.reverse).dropWhile
      (fun c => c ≠ '(') = '(' :: ' ' :: name.reverse := by
    rw [dropWhile_append_all _ _ _ (fun x hx => by
      simp only [List.mem_reverse] at hx
      simp only [ne_eq, decide_eq_true_eq]
      exact fun hX => hcode (hX ▸ hx)), List.dropWhile_cons]
    simp
  unfold extractNombre
  rw [show (name ++ ' ' :: '(' :: (code ++ [')'])).reverse =
      ')' :: (code.reverse ++ '(' :: ' ' :: name.reverse) by simp]
  simp only []
  rw [hdw]
  simp only []
  exact List.reverse_reverse name

theorem blockFields_lines (b : HistEntry) (hb : cleanEntry b) :
    blockFields (linePais b) (lineFecha b) (lineCapital b) (lineMoneda b)
      (lineIdiomas b) (lineTel b) (lineCont b) = entryFields b := by
  obtain ⟨-, -, -, hpar, -, -, -, -, -, -, -, -, -, -⟩ := hb
  unfold blockFields entryFields linePais lineFecha lineCapital lineMoneda
    lineIdiomas lineTel lineCont
  have hnm : extractNombre ((prefPais ++ ((pyStr b.nombre).data ++
      " (".data ++ b.codigo.data ++ ")".data)).drop prefPais.length) =
      (pyStr b.nombre).data := by
    rw [List.drop_left]
    rw [show (pyStr b.nombre).data ++ " (".data ++ b.codigo.data ++ ")".data =
        (pyStr b.nombre).data ++ ' ' :: '(' :: (b.codigo.data ++ [')']) by simp]
    exact extractNombre_spec _ _ hpar
  simp only [List.append_assoc] at hnm ⊢
  rw [hnm, List.drop_left, List.drop_left, List.drop_left, List.drop_left,
    List.drop_left, List.drop_left]

theorem noNL_lines (b : HistEntry) (hb : cleanEntry b) :
    '\n' ∉ linePais b ∧ '\n' ∉ lineFecha b ∧ '\n' ∉ lineCapital b ∧
      '\n' ∉ lineMoneda b ∧ '\n' ∉ lineIdiomas b ∧ '\n' ∉ lineTel b ∧
      '\n' ∉ lineCont b := by
  obtain ⟨-, hn, hcod, -, hf, -, hc, -, hm, hi, -, ht, -, hk⟩ := hb
  refine ⟨?_, ?_, ?_, ?_, ?_, ?_, ?_⟩ <;>
    simp [linePais, lineFecha, lineCapital, lineMoneda, lineIdiomas, lineTel,
      lineCont, List.mem_append, prefPais, prefFecha, prefCapital, prefMoneda,
      prefIdiomas, prefTel, prefCont, hn, hcod, hf, hc, hm, hi, ht, hk]

theorem readEntries_exportBody (bs : List HistEntry)
    (h : ∀ b ∈ bs, cleanEntry b) :
    readEntries (splitNL (exportBody bs)) = bs.map entryFields := by
  induction bs with
  | nil => rfl
  | cons b bs ih =>
    have hb := h b (by simp)
    obtain ⟨hl1, hl2, hl3, hl4, hl5, hl6, hl7⟩ := noNL_lines b hb
    have hrule : '\n' ∉ ruleChars := by decide
    show readEntries (splitNL (exportEntryChars b ++ exportBody bs)) = _
    rw [show exportEntryChars b ++ exportBody bs =
        linePais b ++ '\n' :: (lineFecha b ++ '\n' :: (lineCapital b ++ '\n' ::
        (lineMoneda b ++ '\n' :: (lineIdiomas b ++ '\n' :: (lineTel b ++ '\n' ::
        (lineCont b ++ '\n' :: (ruleChars ++ '\n' :: '\n' :: exportBody bs)))))))
      by simp [exportEntryChars]]
    rw [splitNL_append _ _ hl1, splitNL_append _ _ hl2, splitNL_append _ _ hl3,
      splitNL_append _ _ hl4, splitNL_append _ _ hl5, splitNL_append _ _ hl6,
      splitNL_append _ _ hl7, splitNL_append _ _ hrule,
      show splitNL ('\n' :: exportBody bs) = [] :: splitNL (exportBody bs)
        from rfl]
    simp only [readEntries]
    rw [blockFields_lines b hb, ih (fun x hx => h x (by simp [hx]))]
    rfl

/-- C5 (amended): for a non-empty history whose entries' exported fields
are all present, newline-free strings and whose codes contain no `(` —
and a newline-free export timestamp — exporting and re-reading the file
reproduces, for each in-memory entry, the timestamp, name, capital,
currency, languages, phone code and continent verbatim. -/
theorem export_roundtrip (now : String) (hist : List HistEntry)
    (hnow : '\n' ∉ now.data) (hne : hist ≠ [])
    (hclean : ∀ b ∈ hist, cleanEntry b) :
    ∃ file, exportar_resultados now hist = some file ∧
      leerExportado file = hist.map entryFields := by
  refine ⟨_, by unfold exportar_resultados; rw [if_neg hne], ?_⟩
  unfold leerExportado
  have h1 : '\n' ∉ headerL1 := by decide
  have h2 : '\n' ∉ eqChars := by decide
  have h3 : '\n' ∉ headerL3 now := by
    unfold headerL3
    simp only [List.mem_append, not_or]
    exact ⟨by decide, hnow⟩
  rw [splitNL_append _ _ h1, splitNL_append _ _ h2, splitNL_append _ _ h3,
    show splitNL ('\n' :: exportBody hist) = [] :: splitNL (exportBody hist)
      from rfl]
  simp only [List.drop]
  exact readEntries_exportBody hist hclean

theorem export_roundtrip_witness :
    ∃ file, exportar_resultados "2024-01-01 10:30:00" histClean = some file ∧
      leerExportado file = histClean.map entryFields := by
  apply export_roundtrip
  · decide
  · decide
  · intro b hb
    rw [show b = mkEntry "PE" ciSample "2024-01-01 10:00:00" from by
      simpa [histClean] using hb]
    decide

/-- C5 counterexample: two single-entry histories that differ in the
capital field export to the very same file (a capital embedding a newline
and a forged currency label collides with a currency doing the converse),
so re-reading the file cannot reproduce every in-memory field verbatim
for both. -/
theorem export_collision :
    exportar_resultados "2024-01-01 00:00:00" histCapNL =
      exportar_resultados "2024-01-01 00:00:00" histMonNL ∧
    histCapNL.map (fun b => b.info.capital) ≠
      histMonNL.map (fun b => b.info.capital) := by
  exact ⟨rfl, by decide⟩

end CountryClient
